import Mathlib

/-!
Shallow embedding of `src/immich_face_to_album/__main__.py`.

The program fetches, for each configured face id, the list of time buckets
(`get_time_buckets`), then the asset ids of every bucket
(`get_assets_for_time_bucket`), accumulating them in a Python `set`.
`process_mapping` unions the sets of the include faces, optionally subtracts
the union of the skip faces, and writes the final set to an album in chunks
of 500 (`chunker`, `add_assets_to_album`).

The remote Immich server is modelled by a `Server` record giving, for every
request the program can make, the HTTP status code and the response body.
Asset identifiers (opaque strings in the source) are a type parameter `α`
with a linear order so that `list(unique_asset_ids)` — Python's arbitrary
but fixed set-iteration order — can be embedded as `Finset.sort`.
`exit(1)` on a failed fetch is embedded as `Except.error st` (`st` the
non-success status code); every remote call performed is recorded, in
program order, in an `Event` trace.
-/

namespace ImmichFaceToAlbum

/-- One remote call made by the program, with enough of its outcome recorded
to state the error-handling claims: the HTTP status for the two fetch
endpoints, and the chunk plus the success bit (`status == 200`) for writes. -/
inductive Event (α : Type) where
  | bucketsCall : String → Nat → Event α
  | pageCall : String → String → Nat → Event α
  | writeCall : String → List α → Bool → Event α
  deriving DecidableEq, Repr

/-- The event is an album-write call (`PUT /api/albums/\x7balbumId\x7d/assets`). -/
def Event.isWrite {α : Type} : Event α → Bool
  | .writeCall _ _ _ => true
  | _ => false

/-- The event is a fetch call (bucket listing or bucket page) that returned a
non-success status; in the source this makes the process `exit(1)`. -/
def Event.isFailedFetch {α : Type} : Event α → Bool
  | .bucketsCall _ st => st != 200
  | .pageCall _ _ st => st != 200
  | .writeCall _ _ _ => false

/-- The face id a fetch event is about (`none` for write events). -/
def Event.faceOf {α : Type} : Event α → Option String
  | .bucketsCall f _ => some f
  | .pageCall f _ _ => some f
  | .writeCall _ _ _ => none

/-- The size of the chunk sent by a write event (`none` for fetch events). -/
def Event.writeSize {α : Type} : Event α → Option Nat
  | .writeCall _ c _ => some c.length
  | _ => none

/-- The remote Immich server, as the program observes it: for each request,
the HTTP status code and the relevant part of the JSON body.
`bucketsResp f` models `GET /api/timeline/buckets?personId=f` (body: the
`timeBucket` tokens), `pageResp f b` models
`GET /api/timeline/bucket?personId=f&timeBucket=b` (body: the `id` array),
and `writeStatus a ids` the status of `PUT /api/albums/a/assets`. -/
structure Server (α : Type) where
  bucketsResp : String → Nat × List String
  pageResp : String → String → Nat × List α
  writeStatus : String → List α → Nat

/-- One mapping of the config file: `faceIds`, `albumId` and the optional
`skipFaceIds` key (`none` embeds a mapping object without the key, which the
source reads with `mapping.get("skipFaceIds", [])`). -/
structure Mapping where
  faceIds : List String
  albumId : String
  skipFaceIds : Option (List String)

variable {α : Type} [LinearOrder α]

/-- Embedding of `get_assets_for_time_bucket` iterated over the bucket list of
one face, source lines 140–143: for each bucket, fetch its page; on status 200
add the `id` list to the accumulated set and continue, otherwise `exit(1)`. -/
def fetchPages (srv : Server α) (fid : String) :
    List String → Finset α → List (Event α) × Except Nat (Finset α)
  | [], s => ([], .ok s)
  | b :: rest, s =>
    if (srv.pageResp fid b).1 = 200 then
      let p := fetchPages srv fid rest (s ∪ ((srv.pageResp fid b).2).toFinset)
      (.pageCall fid b (srv.pageResp fid b).1 :: p.1, p.2)
    else ([.pageCall fid b (srv.pageResp fid b).1], .error (srv.pageResp fid b).1)

/-- Embedding of `get_time_buckets` followed by the bucket loop for one face
(source lines 139–143): list the face's time buckets; on status 200 fetch
every bucket's page into the accumulated set, otherwise `exit(1)`. -/
def fetchFace (srv : Server α) (fid : String) (s : Finset α) :
    List (Event α) × Except Nat (Finset α) :=
  if (srv.bucketsResp fid).1 = 200 then
    let p := fetchPages srv fid (srv.bucketsResp fid).2 s
    (.bucketsCall fid (srv.bucketsResp fid).1 :: p.1, p.2)
  else ([.bucketsCall fid (srv.bucketsResp fid).1], .error (srv.bucketsResp fid).1)

/-- Embedding of the `for face_id in face_ids` loop (source lines 136–143,
and the identical skip loop at 147–154): accumulate every face's assets into
one set, left to right. -/
def fetchFaces (srv : Server α) : List String → Finset α → List (Event α) × Except Nat (Finset α)
  | [], s => ([], .ok s)
  | f :: rest, s =>
    let p := fetchFace srv f s
    match p.2 with
    | .error c => (p.1, .error c)
    | .ok s1 =>
      let q := fetchFaces srv rest s1
      (p.1 ++ q.1, q.2)

/-- Embedding of `chunker` (source line 110–111):
`(seq[pos : pos + size] for pos in range(0, len(seq), size))`, written as the
equivalent recursion: first slice `seq[0:size]`, then the chunks of the rest.
Defined for `size ≥ 1`; the program only calls it with `size = 500`. -/
def chunker : List α → Nat → List (List α)
  | _, 0 => []
  | [], _ + 1 => []
  | a :: l, n + 1 => (a :: l.take n) :: chunker (l.drop n) (n + 1)
termination_by seq _ => seq.length
decreasing_by simp; omega

/-- Embedding of `add_assets_to_album` (source lines 67–107): one `PUT`
request; returns `True` exactly when the status is 200 (a non-success status
is only reported, never raised). -/
def add_assets_to_album (srv : Server α) (albumId : String) (assetIds : List α) : Bool :=
  srv.writeStatus albumId assetIds == 200

/-- Embedding of the `for asset_chunk in chunker(asset_ids_list, 500)` loop
(source lines 161–166): one write call per chunk, each attempted regardless
of the success of the previous ones. -/
def writeChunks (srv : Server α) (albumId : String) : List (List α) → List (Event α)
  | [] => []
  | c :: rest =>
    .writeCall albumId c (add_assets_to_album srv albumId c) :: writeChunks srv albumId rest

/-- The diagnostic output and final data of one successful `process_mapping`
pass: the `Excluded \x7bremoved\x7d asset(s)` count when the skip branch ran
(`none` when it did not run and nothing was printed), the
`Total unique assets` count, the final set, and `list(unique_asset_ids)`. -/
structure Outcome (α : Type) where
  excludedReport : Option Nat
  totalReport : Nat
  finalSet : Finset α
  finalList : List α
  deriving DecidableEq

/-- Embedding of `process_mapping` (source lines 130–166): union the include
faces' assets; if `skip_face_ids` is non-empty, union the skip faces' assets
and remove them, reporting `before - after`; then write the final list in
chunks of 500. A failed fetch (`exit(1)`) ends the run at that event. -/
def processMapping (srv : Server α) (m : Mapping) : List (Event α) × Except Nat (Outcome α) :=
  let p := fetchFaces srv m.faceIds ∅
  match p.2 with
  | .error c => (p.1, .error c)
  | .ok s0 =>
    let skipIds := m.skipFaceIds.getD []
    if skipIds.isEmpty then
      let finalL := Finset.sort (· ≤ ·) s0
      (p.1 ++ writeChunks srv m.albumId (chunker finalL 500),
       .ok ⟨none, s0.card, s0, finalL⟩)
    else
      let q := fetchFaces srv skipIds ∅
      match q.2 with
      | .error c => (p.1 ++ q.1, .error c)
      | .ok skipSet =>
        let s1 := s0 \ skipSet
        let removed := s0.card - s1.card
        let finalL := Finset.sort (· ≤ ·) s1
        (p.1 ++ q.1 ++ writeChunks srv m.albumId (chunker finalL 500),
         .ok ⟨some removed, s1.card, s1, finalL⟩)

/-- Embedding of `run_once` over the configured mappings (source lines
168–182): process each mapping in order; a fatal fetch error (`exit(1)`)
terminates the whole run. -/
def runAll (srv : Server α) : List Mapping → List (Event α) × Except Nat Unit
  | [] => ([], .ok ())
  | m :: rest =>
    let p := processMapping srv m
    match p.2 with
    | .error c => (p.1, .error c)
    | .ok _ =>
      let q := runAll srv rest
      (p.1 ++ q.1, q.2)

/-- The asset-identifier set of one face as held by the server: the union of
the `id` arrays of all its time-bucket pages (the set the program's fetch
phase accumulates for that face when every call succeeds). -/
def faceSet (srv : Server α) (fid : String) : Finset α :=
  ((srv.bucketsResp fid).2).foldl (fun s b => s ∪ ((srv.pageResp fid b).2).toFinset) ∅

/-- Every fetch the program makes for face `fid` succeeds: the bucket listing
returns status 200 and so does every bucket page. -/
def fetchOk (srv : Server α) (fid : String) : Prop :=
  (srv.bucketsResp fid).1 = 200 ∧ ∀ b ∈ (srv.bucketsResp fid).2, (srv.pageResp fid b).1 = 200

instance (srv : Server α) (fid : String) : Decidable (fetchOk srv fid) := by
  unfold fetchOk; exact instDecidableAnd

/-- The union of the faces' asset sets, accumulated left to right as the
source's `for face_id in face_ids` loop does. -/
def unionFaces (srv : Server α) (fids : List String) : Finset α :=
  fids.foldl (fun s f => s ∪ faceSet srv f) ∅

/-- No event of the list is a fetch call that returned a non-success status. -/
def NoFail (evs : List (Event α)) : Prop := ∀ e ∈ evs, e.isFailedFetch = false

/-- The list ends with a failed fetch call, and no earlier event is one:
the embedded counterpart of `exit(1)` firing at the first failed fetch. -/
def FailsLast (evs : List (Event α)) : Prop :=
  ∃ pre e, evs = pre ++ [e] ∧ e.isFailedFetch = true ∧ NoFail pre

/-- An event trace together with a result is fatal-on-fetch-failure: a
successful result means no fetch ever failed, and an error result means the
trace stops right at the failed fetch. -/
def Fatal {γ : Type} (t : List (Event α) × Except Nat γ) : Prop :=
  (∀ v, t.2 = Except.ok v → NoFail t.1) ∧ (∀ c, t.2 = Except.error c → FailsLast t.1)

/-- A small concrete server over `Nat` asset ids, used to instantiate the
theorems at concrete inputs: face `A` has one bucket `b1` holding assets
1, 2, 3; face `B` has one bucket `b2` holding 3, 4; face `C` has one bucket
`b3` holding 4, 5; every other face has no buckets; every write succeeds. -/
def srvDemo : Server Nat :=
  ⟨fun f =>
      if f = "A" then (200, ["b1"])
      else if f = "B" then (200, ["b2"])
      else if f = "C" then (200, ["b3"])
      else (200, []),
   fun f _ =>
      if f = "A" then (200, [1, 2, 3])
      else if f = "B" then (200, [3, 4])
      else if f = "C" then (200, [4, 5])
      else (200, []),
   fun _ _ => 200⟩

/-- A concrete server whose only face holds 1200 distinct assets in a single
bucket, with all calls succeeding. -/
def srv1200 : Server Nat :=
  ⟨fun _ => (200, ["b"]), fun _ _ => (200, List.range 1200), fun _ _ => 200⟩

/-- A concrete server whose bucket-listing call always fails with status 500. -/
def srvFail : Server Nat :=
  ⟨fun _ => (500, []), fun _ _ => (200, []), fun _ _ => 200⟩

/-- The one-mapping configuration used to instantiate the run-level theorems
on the failing server. -/
def msFail : List Mapping := [⟨["A"], "al", none⟩]

/-- A concrete server that accepts every fetch but rejects every write with
status 400. -/
def srvWriteFail : Server Nat :=
  ⟨fun _ => (200, ["b1"]), fun _ _ => (200, [1, 2, 3]), fun _ _ => 400⟩

/-! ## Lemmas about `chunker` -/

theorem chunker_nil (n : Nat) : chunker ([] : List α) n = [] := by
  cases n <;> simp [chunker]

theorem chunker_cons (l : List α) (n : Nat) (hn : n ≠ 0) (hl : l ≠ []) :
    chunker l n = l.take n :: chunker (l.drop n) n := by
  cases n with
  | zero => exact absurd rfl hn
  | succ m =>
    cases l with
    | nil => exact absurd rfl hl
    | cons a t => simp [chunker]

theorem chunker_eq_nil_iff (l : List α) (n : Nat) (hn : n ≠ 0) :
    chunker l n = [] ↔ l = [] := by
  cases n with
  | zero => exact absurd rfl hn
  | succ m =>
    cases l with
    | nil => simp [chunker]
    | cons a t => simp [chunker]

theorem chunker_flatten (l : List α) (n : Nat) (hn : n ≠ 0) :
    (chunker l n).flatten = l := by
  generalize hk : l.length = k
  induction k using Nat.strong_induction_on generalizing l with
  | _ k ih =>
    cases l with
    | nil => simp [chunker_nil]
    | cons a t =>
      have hlt : ((a :: t).drop n).length < k := by
        subst hk
        cases n with
        | zero => exact absurd rfl hn
        | succ m => simp; omega
      rw [chunker_cons _ _ hn (by simp), List.flatten_cons, ih _ hlt _ rfl]
      exact List.take_append_drop n (a :: t)

theorem length_le_of_mem_chunker (l : List α) (n : Nat) (c : List α)
    (hc : c ∈ chunker l n) : c.length ≤ n := by
  generalize hk : l.length = k
  induction k using Nat.strong_induction_on generalizing l c with
  | _ k ih =>
    cases n with
    | zero => simp [chunker] at hc
    | succ m =>
      cases l with
      | nil => simp [chunker_nil] at hc
      | cons a t =>
        rw [chunker_cons _ _ (by omega) (by simp)] at hc
        rcases List.mem_cons.mp hc with h | h
        · subst h; simpa using List.length_take_le (m + 1) (a :: t)
        · exact ih ((a :: t).drop (m + 1)).length (by subst hk; simp; omega) _ _ h rfl

theorem length_eq_of_mem_chunker_dropLast (l : List α) (n : Nat) (c : List α)
    (hc : c ∈ (chunker l n).dropLast) : c.length = n := by
  generalize hk : l.length = k
  induction k using Nat.strong_induction_on generalizing l c with
  | _ k ih =>
    cases n with
    | zero => simp [chunker] at hc
    | succ m =>
      cases l with
      | nil => simp [chunker_nil] at hc
      | cons a t =>
        rw [chunker_cons _ _ (by omega) (by simp)] at hc
        rcases hrest : chunker ((a :: t).drop (m + 1)) (m + 1) with _ | ⟨c1, cs⟩
        · rw [hrest] at hc; simp at hc
        · rw [hrest] at hc
          rw [List.dropLast_cons_of_ne_nil (by simp)] at hc
          rcases List.mem_cons.mp hc with h | h
          · subst h
            have hne : (a :: t).drop (m + 1) ≠ [] := by
              intro e
              rw [e, chunker_nil] at hrest
              exact List.noConfusion hrest
            have hlen : m + 1 < (a :: t).length := by
              by_contra hle
              exact hne (List.drop_eq_nil_of_le (by omega))
            simp only [List.length_cons] at hlen
            simp [List.length_take]
            omega
          · exact ih ((a :: t).drop (m + 1)).length (by subst hk; simp; omega)
              ((a :: t).drop (m + 1)) c (by rw [hrest]; exact h) rfl

/-! ## Lemmas about the fetch phase -/

theorem foldl_union_init {β : Type} (g : β → Finset α) (l : List β) (s t : Finset α) :
    l.foldl (fun a b => a ∪ g b) (s ∪ t) = s ∪ l.foldl (fun a b => a ∪ g b) t := by
  induction l generalizing t with
  | nil => simp
  | cons b l ih => simp only [List.foldl_cons]; rw [Finset.union_assoc, ih]

theorem foldl_union_eq {β : Type} (g : β → Finset α) (l : List β) (s : Finset α) :
    l.foldl (fun a b => a ∪ g b) s = s ∪ l.foldl (fun a b => a ∪ g b) ∅ := by
  have h := foldl_union_init g l s ∅
  simpa using h

theorem unionFaces_nil (srv : Server α) : unionFaces srv [] = ∅ := rfl

theorem unionFaces_cons (srv : Server α) (f : String) (rest : List String) :
    unionFaces srv (f :: rest) = faceSet srv f ∪ unionFaces srv rest := by
  simp only [unionFaces, List.foldl_cons]
  rw [foldl_union_eq]
  simp

theorem mem_unionFaces (srv : Server α) (fids : List String) (a : α) :
    a ∈ unionFaces srv fids ↔ ∃ f ∈ fids, a ∈ faceSet srv f := by
  induction fids with
  | nil => simp [unionFaces_nil]
  | cons f rest ih => simp [unionFaces_cons, ih]

theorem unionFaces_perm (srv : Server α) (fids fids2 : List String)
    (h : fids.Perm fids2) : unionFaces srv fids = unionFaces srv fids2 := by
  ext a
  simp only [mem_unionFaces]
  constructor
  · rintro ⟨f, hf, ha⟩; exact ⟨f, h.mem_iff.mp hf, ha⟩
  · rintro ⟨f, hf, ha⟩; exact ⟨f, h.mem_iff.mpr hf, ha⟩

theorem fetchPages_ok (srv : Server α) (fid : String) (bs : List String) (s : Finset α)
    (h : ∀ b ∈ bs, (srv.pageResp fid b).1 = 200) :
    fetchPages srv fid bs s =
      (bs.map fun b => Event.pageCall fid b 200,
       .ok (bs.foldl (fun t b => t ∪ ((srv.pageResp fid b).2).toFinset) s)) := by
  induction bs generalizing s with
  | nil => simp [fetchPages]
  | cons b rest ih =>
    have hb : (srv.pageResp fid b).1 = 200 := h b (by simp)
    rw [fetchPages, if_pos hb, ih _ (fun x hx => h x (by simp [hx]))]
    simp [hb]

theorem fetchFace_ok (srv : Server α) (fid : String) (s : Finset α) (h : fetchOk srv fid) :
    fetchFace srv fid s =
      (Event.bucketsCall fid 200 ::
        ((srv.bucketsResp fid).2).map (fun b => Event.pageCall fid b 200),
       .ok (s ∪ faceSet srv fid)) := by
  obtain ⟨h1, h2⟩ := h
  rw [fetchFace, if_pos h1, fetchPages_ok _ _ _ _ h2]
  rw [faceSet, foldl_union_eq]
  simp [h1]

theorem fetchFaces_snd_ok (srv : Server α) (fids : List String) (s : Finset α)
    (h : ∀ f ∈ fids, fetchOk srv f) :
    (fetchFaces srv fids s).2 = .ok (s ∪ unionFaces srv fids) := by
  induction fids generalizing s with
  | nil => simp [fetchFaces, unionFaces_nil]
  | cons f rest ih =>
    rw [fetchFaces, fetchFace_ok _ _ _ (h f (by simp))]
    simp only []
    rw [ih _ (fun x hx => h x (by simp [hx]))]
    rw [unionFaces_cons, Finset.union_assoc]

/-! ## Lemmas about the event traces -/

theorem Event.not_isWrite_of_faceOf {e : Event α} {f : String} (h : e.faceOf = some f) :
    e.isWrite = false := by
  cases e <;> simp [Event.faceOf, Event.isWrite] at h ⊢

theorem fetchPages_events_face (srv : Server α) (fid : String) (bs : List String) (s : Finset α) :
    ∀ e ∈ (fetchPages srv fid bs s).1, e.faceOf = some fid := by
  induction bs generalizing s with
  | nil => simp [fetchPages]
  | cons b rest ih =>
    intro e he
    by_cases hb : (srv.pageResp fid b).1 = 200
    · rw [fetchPages, if_pos hb] at he
      simp only [List.mem_cons] at he
      rcases he with he | he
      · subst he; rfl
      · exact ih _ e he
    · rw [fetchPages, if_neg hb] at he
      simp only [List.mem_singleton] at he
      subst he; rfl

theorem fetchFace_events_face (srv : Server α) (fid : String) (s : Finset α) :
    ∀ e ∈ (fetchFace srv fid s).1, e.faceOf = some fid := by
  intro e he
  by_cases hb : (srv.bucketsResp fid).1 = 200
  · rw [fetchFace, if_pos hb] at he
    simp only [List.mem_cons] at he
    rcases he with he | he
    · subst he; rfl
    · exact fetchPages_events_face srv fid _ s e he
  · rw [fetchFace, if_neg hb] at he
    simp only [List.mem_singleton] at he
    subst he; rfl

theorem fetchFaces_events_face (srv : Server α) (fids : List String) (s : Finset α) :
    ∀ e ∈ (fetchFaces srv fids s).1, ∃ f ∈ fids, e.faceOf = some f := by
  induction fids generalizing s with
  | nil => simp [fetchFaces]
  | cons f rest ih =>
    intro e he
    rw [fetchFaces] at he
    rcases hp : fetchFace srv f s with ⟨evs, r⟩
    rw [hp] at he
    cases r with
    | error c =>
      simp only at he
      exact ⟨f, by simp, fetchFace_events_face srv f s e (by rw [hp]; exact he)⟩
    | ok s1 =>
      simp only at he
      rcases List.mem_append.mp he with h1 | h1
      · exact ⟨f, by simp, fetchFace_events_face srv f s e (by rw [hp]; exact h1)⟩
      · obtain ⟨g, hg, hface⟩ := ih s1 e h1
        exact ⟨g, by simp [hg], hface⟩

theorem writeChunks_eq_map (srv : Server α) (aid : String) (cs : List (List α)) :
    writeChunks srv aid cs =
      cs.map fun c => Event.writeCall aid c (add_assets_to_album srv aid c) := by
  induction cs with
  | nil => rfl
  | cons c rest ih => simp [writeChunks, ih]

theorem writeChunks_isWrite (srv : Server α) (aid : String) (cs : List (List α)) :
    ∀ e ∈ writeChunks srv aid cs, e.isWrite = true := by
  intro e he
  rw [writeChunks_eq_map] at he
  obtain ⟨c, _, hc⟩ := List.mem_map.mp he
  subst hc; rfl

theorem filter_isWrite_fetchFaces (srv : Server α) (fids : List String) (s : Finset α) :
    ((fetchFaces srv fids s).1).filter Event.isWrite = [] := by
  rw [List.filter_eq_nil_iff]
  intro e he
  obtain ⟨f, _, hface⟩ := fetchFaces_events_face srv fids s e he
  simp [Event.not_isWrite_of_faceOf hface]

theorem filter_isWrite_writeChunks (srv : Server α) (aid : String) (cs : List (List α)) :
    (writeChunks srv aid cs).filter Event.isWrite = writeChunks srv aid cs := by
  rw [List.filter_eq_self]
  exact writeChunks_isWrite srv aid cs

/-! ## Characterization of a fully successful `process_mapping` pass -/

theorem processMapping_ok_noskip (srv : Server α) (m : Mapping)
    (hInc : ∀ f ∈ m.faceIds, fetchOk srv f)
    (hs : m.skipFaceIds.getD [] = []) :
    processMapping srv m =
      ((fetchFaces srv m.faceIds ∅).1 ++
        writeChunks srv m.albumId
          (chunker (Finset.sort (· ≤ ·) (unionFaces srv m.faceIds)) 500),
       .ok ⟨none, (unionFaces srv m.faceIds).card, unionFaces srv m.faceIds,
            Finset.sort (· ≤ ·) (unionFaces srv m.faceIds)⟩) := by
  unfold processMapping
  rcases hp : fetchFaces srv m.faceIds ∅ with ⟨evs, r⟩
  have h2 := fetchFaces_snd_ok srv m.faceIds ∅ hInc
  rw [hp] at h2
  simp only at h2
  rw [h2]
  simp [hs]

theorem processMapping_ok_skip (srv : Server α) (m : Mapping)
    (hInc : ∀ f ∈ m.faceIds, fetchOk srv f)
    (hSkip : ∀ f ∈ m.skipFaceIds.getD [], fetchOk srv f)
    (hne : m.skipFaceIds.getD [] ≠ []) :
    processMapping srv m =
      ((fetchFaces srv m.faceIds ∅).1 ++ (fetchFaces srv (m.skipFaceIds.getD []) ∅).1 ++
        writeChunks srv m.albumId
          (chunker
            (Finset.sort (· ≤ ·)
              (unionFaces srv m.faceIds \ unionFaces srv (m.skipFaceIds.getD []))) 500),
       .ok ⟨some ((unionFaces srv m.faceIds).card -
              (unionFaces srv m.faceIds \ unionFaces srv (m.skipFaceIds.getD [])).card),
            (unionFaces srv m.faceIds \ unionFaces srv (m.skipFaceIds.getD [])).card,
            unionFaces srv m.faceIds \ unionFaces srv (m.skipFaceIds.getD []),
            Finset.sort (· ≤ ·)
              (unionFaces srv m.faceIds \ unionFaces srv (m.skipFaceIds.getD []))⟩) := by
  unfold processMapping
  rcases hp : fetchFaces srv m.faceIds ∅ with ⟨evs, r⟩
  have h2 := fetchFaces_snd_ok srv m.faceIds ∅ hInc
  rw [hp] at h2
  simp only at h2
  rw [h2]
  have hq : fetchFaces srv (m.skipFaceIds.getD []) ∅ =
      ((fetchFaces srv (m.skipFaceIds.getD []) ∅).1,
       Except.ok (∅ ∪ unionFaces srv (m.skipFaceIds.getD []))) := by
    conv_rhs => rw [← fetchFaces_snd_ok srv (m.skipFaceIds.getD []) ∅ hSkip]
  have hne2 : (m.skipFaceIds.getD []).isEmpty = false := by
    cases hcase : m.skipFaceIds.getD [] with
    | nil => exact absurd hcase hne
    | cons x xs => rfl
  simp only []
  rw [if_neg (by simp [hne2])]
  rw [hq]
  simp only []
  simp

/-! ## A failed fetch is fatal: it is always the last event of the run -/

theorem NoFail.append {a b : List (Event α)} (ha : NoFail a) (hb : NoFail b) :
    NoFail (a ++ b) := by
  intro e he
  rcases List.mem_append.mp he with h | h
  exacts [ha e h, hb e h]

theorem FailsLast.append_left {a b : List (Event α)} (ha : NoFail a) (hb : FailsLast b) :
    FailsLast (a ++ b) := by
  obtain ⟨pre, e, hsh, hf, hpre⟩ := hb
  exact ⟨a ++ pre, e, by simp [hsh], hf, NoFail.append ha hpre⟩

theorem noFail_writeChunks (srv : Server α) (aid : String) (cs : List (List α)) :
    NoFail (writeChunks srv aid cs) := by
  intro e he
  have h := writeChunks_isWrite srv aid cs e he
  cases e <;> simp_all [Event.isWrite, Event.isFailedFetch]

theorem fetchPages_fatal (srv : Server α) (fid : String) (bs : List String) (s : Finset α) :
    Fatal (fetchPages srv fid bs s) := by
  induction bs generalizing s with
  | nil =>
    constructor
    · intro v _ e he; simp [fetchPages] at he
    · intro c hc; simp [fetchPages] at hc
  | cons b rest ih =>
    by_cases hb : (srv.pageResp fid b).1 = 200
    · constructor
      · intro v hv e he
        rw [fetchPages, if_pos hb] at hv he
        simp only [] at hv he
        rcases List.mem_cons.mp he with h | h
        · subst h; simp [Event.isFailedFetch, hb]
        · exact (ih _).1 v hv e h
      · intro c hc
        rw [fetchPages, if_pos hb] at hc ⊢
        simp only [] at hc ⊢
        obtain ⟨pre, ev, hsh, hf, hpre⟩ := (ih _).2 c hc
        refine ⟨Event.pageCall fid b (srv.pageResp fid b).1 :: pre, ev, by simp [hsh], hf, ?_⟩
        intro e2 he2
        rcases List.mem_cons.mp he2 with h | h
        · subst h; simp [Event.isFailedFetch, hb]
        · exact hpre e2 h
    · constructor
      · intro v hv
        rw [fetchPages, if_neg hb] at hv
        exact absurd hv (by simp)
      · intro c _
        rw [fetchPages, if_neg hb]
        refine ⟨[], Event.pageCall fid b (srv.pageResp fid b).1, by simp, ?_, by intro e h; simp at h⟩
        simp [Event.isFailedFetch, hb]

theorem fetchFace_fatal (srv : Server α) (fid : String) (s : Finset α) :
    Fatal (fetchFace srv fid s) := by
  by_cases hb : (srv.bucketsResp fid).1 = 200
  · constructor
    · intro v hv e he
      rw [fetchFace, if_pos hb] at hv he
      simp only [] at hv he
      rcases List.mem_cons.mp he with h | h
      · subst h; simp [Event.isFailedFetch, hb]
      · exact (fetchPages_fatal srv fid _ s).1 v hv e h
    · intro c hc
      rw [fetchFace, if_pos hb] at hc ⊢
      simp only [] at hc ⊢
      obtain ⟨pre, ev, hsh, hf, hpre⟩ := (fetchPages_fatal srv fid _ s).2 c hc
      refine ⟨Event.bucketsCall fid (srv.bucketsResp fid).1 :: pre, ev, by simp [hsh], hf, ?_⟩
      intro e2 he2
      rcases List.mem_cons.mp he2 with h | h
      · subst h; simp [Event.isFailedFetch, hb]
      · exact hpre e2 h
  · constructor
    · intro v hv
      rw [fetchFace, if_neg hb] at hv
      exact absurd hv (by simp)
    · intro c _
      rw [fetchFace, if_neg hb]
      refine ⟨[], Event.bucketsCall fid (srv.bucketsResp fid).1, by simp, ?_, by intro e h; simp at h⟩
      simp [Event.isFailedFetch, hb]

theorem fetchFaces_fatal (srv : Server α) (fids : List String) (s : Finset α) :
    Fatal (fetchFaces srv fids s) := by
  induction fids generalizing s with
  | nil =>
    constructor
    · intro v _ e he; simp [fetchFaces] at he
    · intro c hc; simp [fetchFaces] at hc
  | cons f rest ih =>
    rw [fetchFaces]
    cases hr : (fetchFace srv f s).2 with
    | error c =>
      constructor
      · intro v hv
        exact absurd hv (by simp)
      · intro c2 hc
        simp only [] at hc
        exact (fetchFace_fatal srv f s).2 c (by rw [hr])
    | ok s1 =>
      constructor
      · intro v hv e he
        simp only [] at hv he
        rcases List.mem_append.mp he with h | h
        · exact (fetchFace_fatal srv f s).1 s1 hr e h
        · exact (ih s1).1 v hv e h
      · intro c hc
        simp only [] at hc ⊢
        exact FailsLast.append_left (fun e h => (fetchFace_fatal srv f s).1 s1 hr e h)
          ((ih s1).2 c hc)

theorem processMapping_fatal (srv : Server α) (m : Mapping) :
    Fatal (processMapping srv m) := by
  unfold processMapping
  simp only []
  cases hr : (fetchFaces srv m.faceIds ∅).2 with
  | error c =>
    constructor
    · intro v hv
      simp only [hr] at hv
      exact absurd hv (by simp)
    · intro c2 _
      simp only [hr]
      exact (fetchFaces_fatal srv m.faceIds ∅).2 c hr
  | ok s0 =>
    cases hsk : (m.skipFaceIds.getD []).isEmpty with
    | true =>
      constructor
      · intro v _ e he
        simp only [hr, hsk, if_true] at he
        rcases List.mem_append.mp he with h | h
        · exact (fetchFaces_fatal srv m.faceIds ∅).1 s0 hr e h
        · exact noFail_writeChunks srv m.albumId _ e h
      · intro c hc
        simp only [hr, hsk, if_true] at hc
        exact absurd hc (by simp)
    | false =>
      cases hq : (fetchFaces srv (m.skipFaceIds.getD []) ∅).2 with
      | error c =>
        constructor
        · intro v hv
          simp only [hr, hsk, if_false, hq] at hv
          exact absurd hv (by simp)
        · intro c2 _
          simp only [hr, hsk, if_false, hq]
          exact FailsLast.append_left
            (fun e h => (fetchFaces_fatal srv m.faceIds ∅).1 s0 hr e h)
            ((fetchFaces_fatal srv (m.skipFaceIds.getD []) ∅).2 c hq)
      | ok s1 =>
        constructor
        · intro v _ e he
          simp only [hr, hsk, if_false, hq] at he
          rcases List.mem_append.mp he with h | h
          · rcases List.mem_append.mp h with h1 | h1
            · exact (fetchFaces_fatal srv m.faceIds ∅).1 s0 hr e h1
            · exact (fetchFaces_fatal srv (m.skipFaceIds.getD []) ∅).1 s1 hq e h1
          · exact noFail_writeChunks srv m.albumId _ e h
        · intro c hc
          simp only [hr, hsk, if_false, hq] at hc
          exact absurd hc (by simp)

theorem runAll_fatal (srv : Server α) (ms : List Mapping) :
    Fatal (runAll srv ms) := by
  induction ms with
  | nil =>
    constructor
    · intro v _ e he; simp [runAll] at he
    · intro c hc; simp [runAll] at hc
  | cons m rest ih =>
    rw [runAll]
    cases hr : (processMapping srv m).2 with
    | error c =>
      constructor
      · intro v hv; exact absurd hv (by simp)
      · intro c2 _
        simp only []
        exact (processMapping_fatal srv m).2 c hr
    | ok o =>
      constructor
      · intro v hv e he
        simp only [] at hv he
        rcases List.mem_append.mp he with h | h
        · exact (processMapping_fatal srv m).1 o hr e h
        · exact ih.1 v hv e h
      · intro c hc
        simp only [] at hc ⊢
        exact FailsLast.append_left (fun e h => (processMapping_fatal srv m).1 o hr e h)
          (ih.2 c hc)

/-! ## Chunk sizes for a 1200-element list -/

theorem chunker_sizes_1200 (l : List α) (h : l.length = 1200) :
    (chunker l 500).map List.length = [500, 500, 200] := by
  have h0 : l ≠ [] := by intro e; subst e; simp at h
  have h1 : l.drop 500 ≠ [] := by
    intro e
    have he := congrArg List.length e
    simp [h] at he
  have h2 : (l.drop 500).drop 500 ≠ [] := by
    intro e
    have he := congrArg List.length e
    simp [h] at he
  have h3 : ((l.drop 500).drop 500).drop 500 = [] := by
    apply List.drop_eq_nil_of_le
    simp [h]
  rw [chunker_cons l 500 (by omega) h0,
      chunker_cons _ 500 (by omega) h1,
      chunker_cons _ 500 (by omega) h2,
      h3, chunker_nil]
  simp [h, List.length_take, List.length_drop]

/-! ## The claims -/

/-- Claim C3: for every finite sequence and the chunk size 500, `chunker` is
lossless and order-preserving — concatenating the produced chunks in order
yields exactly the sequence, with no omissions and no duplicates — every
chunk has length at most 500, and every chunk except possibly the last has
length exactly 500, so only the final chunk may be shorter when the total
length is not a multiple of 500. -/
theorem chunker_500_lossless (seq : List α) :
    (chunker seq 500).flatten = seq ∧
    (∀ c ∈ chunker seq 500, c.length ≤ 500) ∧
    (∀ c ∈ (chunker seq 500).dropLast, c.length = 500) :=
  ⟨chunker_flatten seq 500 (by omega),
   fun c hc => length_le_of_mem_chunker seq 500 c hc,
   fun c hc => length_eq_of_mem_chunker_dropLast seq 500 c hc⟩

/-- Witness for C3 at the concrete sequence `0, 1, ..., 1233`. -/
theorem chunker_500_lossless_witness :
    (chunker (List.range 1234) 500).flatten = List.range 1234 ∧
    (∀ c ∈ chunker (List.range 1234) 500, c.length ≤ 500) ∧
    (∀ c ∈ (chunker (List.range 1234) 500).dropLast, c.length = 500) :=
  chunker_500_lossless (List.range 1234)

/-- Claim C1: for include faces whose sets union to `I` and a non-empty list
of skip faces whose sets union to `S` (all fetches succeeding),
`process_mapping` computes the final set `I \ S` — an asset present in both
an include face's set and a skip face's set is excluded — and reports
exactly `|I| - |I \ S|` excluded assets. -/
theorem reconcile_skip_difference (srv : Server α) (m : Mapping)
    (hInc : ∀ f ∈ m.faceIds, fetchOk srv f)
    (hSkip : ∀ f ∈ m.skipFaceIds.getD [], fetchOk srv f)
    (hne : m.skipFaceIds.getD [] ≠ []) :
    ∃ trace out, processMapping srv m = (trace, Except.ok out) ∧
      out.finalSet = unionFaces srv m.faceIds \ unionFaces srv (m.skipFaceIds.getD []) ∧
      (∀ a, a ∈ unionFaces srv m.faceIds → a ∈ unionFaces srv (m.skipFaceIds.getD []) →
        a ∉ out.finalSet) ∧
      out.excludedReport =
        some ((unionFaces srv m.faceIds).card -
          (unionFaces srv m.faceIds \ unionFaces srv (m.skipFaceIds.getD [])).card) := by
  refine ⟨_, _, processMapping_ok_skip srv m hInc hSkip hne, rfl, ?_, rfl⟩
  intro a _ hs
  simp [Finset.mem_sdiff, hs]

/-- Witness for C1: include faces `A`, `B`, skip face `C` on the demo
server. -/
theorem reconcile_skip_difference_witness :
    ∃ trace out,
      processMapping srvDemo ⟨["A", "B"], "al", some ["C"]⟩ = (trace, Except.ok out) ∧
      out.finalSet =
        unionFaces srvDemo (Mapping.mk ["A", "B"] "al" (some ["C"])).faceIds \
          unionFaces srvDemo ((Mapping.mk ["A", "B"] "al" (some ["C"])).skipFaceIds.getD []) ∧
      (∀ a, a ∈ unionFaces srvDemo (Mapping.mk ["A", "B"] "al" (some ["C"])).faceIds →
        a ∈ unionFaces srvDemo ((Mapping.mk ["A", "B"] "al" (some ["C"])).skipFaceIds.getD []) →
        a ∉ out.finalSet) ∧
      out.excludedReport =
        some ((unionFaces srvDemo (Mapping.mk ["A", "B"] "al" (some ["C"])).faceIds).card -
          (unionFaces srvDemo (Mapping.mk ["A", "B"] "al" (some ["C"])).faceIds \
            unionFaces srvDemo
              ((Mapping.mk ["A", "B"] "al" (some ["C"])).skipFaceIds.getD [])).card) :=
  reconcile_skip_difference srvDemo ⟨["A", "B"], "al", some ["C"]⟩
    (by decide) (by decide) (by decide)

/-- Claim C2: with no skip faces (all fetches succeeding), the reconciled set
is exactly the union of the include faces' sets — an asset identifier appears
exactly once in the final list no matter how many faces reference it — and
the set is the same for every permutation of the include faces. -/
theorem reconcile_union_noskip (srv : Server α) (m m2 : Mapping)
    (hperm : m.faceIds.Perm m2.faceIds)
    (hs : m.skipFaceIds.getD [] = [])
    (hs2 : m2.skipFaceIds.getD [] = [])
    (hInc : ∀ f ∈ m.faceIds, fetchOk srv f) :
    ∃ trace out trace2 out2,
      processMapping srv m = (trace, Except.ok out) ∧
      processMapping srv m2 = (trace2, Except.ok out2) ∧
      out.finalSet = unionFaces srv m.faceIds ∧
      (∀ a, a ∈ out.finalSet ↔ ∃ f ∈ m.faceIds, a ∈ faceSet srv f) ∧
      out.finalList.Nodup ∧
      (∀ a ∈ out.finalSet, out.finalList.count a = 1) ∧
      out2.finalSet = out.finalSet := by
  have hInc2 : ∀ f ∈ m2.faceIds, fetchOk srv f := fun f hf => hInc f (hperm.mem_iff.mpr hf)
  refine ⟨_, _, _, _, processMapping_ok_noskip srv m hInc hs,
    processMapping_ok_noskip srv m2 hInc2 hs2, rfl, ?_, ?_, ?_, ?_⟩
  · intro a; exact mem_unionFaces srv m.faceIds a
  · exact Finset.sort_nodup _ _
  · intro a ha
    exact List.count_eq_one_of_mem (Finset.sort_nodup _ _) ((Finset.mem_sort _).mpr ha)
  · exact (unionFaces_perm srv m.faceIds m2.faceIds hperm).symm

/-- Witness for C2: include faces `A, B` against the permutation `B, A` on
the demo server. -/
theorem reconcile_union_noskip_witness :
    ∃ trace out trace2 out2,
      processMapping srvDemo ⟨["A", "B"], "al", none⟩ = (trace, Except.ok out) ∧
      processMapping srvDemo ⟨["B", "A"], "al", some []⟩ = (trace2, Except.ok out2) ∧
      out.finalSet = unionFaces srvDemo (Mapping.mk ["A", "B"] "al" none).faceIds ∧
      (∀ a, a ∈ out.finalSet ↔
        ∃ f ∈ (Mapping.mk ["A", "B"] "al" none).faceIds, a ∈ faceSet srvDemo f) ∧
      out.finalList.Nodup ∧
      (∀ a ∈ out.finalSet, out.finalList.count a = 1) ∧
      out2.finalSet = out.finalSet :=
  reconcile_union_noskip srvDemo ⟨["A", "B"], "al", none⟩ ⟨["B", "A"], "al", some []⟩
    (by decide) (by decide) (by decide) (by decide)

/-- Claim C9: with an explicitly empty skip-face list (all include fetches
succeeding), `process_mapping` skips the subtraction step entirely — no
excluded-count is reported (zero exclusions), every fetch event is for an
include face, and the final set is the include union unchanged. -/
theorem empty_skiplist_skips_subtraction (srv : Server α) (m : Mapping)
    (hInc : ∀ f ∈ m.faceIds, fetchOk srv f)
    (hs : m.skipFaceIds = some []) :
    ∃ trace out, processMapping srv m = (trace, Except.ok out) ∧
      out.excludedReport = none ∧
      out.finalSet = unionFaces srv m.faceIds ∧
      (∀ e ∈ trace, ∀ f, e.faceOf = some f → f ∈ m.faceIds) := by
  have hs2 : m.skipFaceIds.getD [] = [] := by rw [hs]; rfl
  refine ⟨_, _, processMapping_ok_noskip srv m hInc hs2, rfl, rfl, ?_⟩
  intro e he f hf
  rcases List.mem_append.mp he with h | h
  · obtain ⟨g, hg, hgf⟩ := fetchFaces_events_face srv m.faceIds ∅ e h
    rw [hgf] at hf
    cases hf
    exact hg
  · have hw := writeChunks_isWrite srv m.albumId _ e h
    have hnw := Event.not_isWrite_of_faceOf hf
    rw [hw] at hnw
    exact Bool.noConfusion hnw

/-- Witness for C9: include face `A` with skip list present but empty. -/
theorem empty_skiplist_skips_subtraction_witness :
    ∃ trace out,
      processMapping srvDemo ⟨["A"], "al", some []⟩ = (trace, Except.ok out) ∧
      out.excludedReport = none ∧
      out.finalSet = unionFaces srvDemo (Mapping.mk ["A"] "al" (some [])).faceIds ∧
      (∀ e ∈ trace, ∀ f, e.faceOf = some f → f ∈ (Mapping.mk ["A"] "al" (some [])).faceIds) :=
  empty_skiplist_skips_subtraction srvDemo ⟨["A"], "al", some []⟩ (by decide) (by decide)

/-- Claim C10: a mapping object without the `skipFaceIds` key behaves exactly
as one whose `skipFaceIds` is the empty list: `mapping.get("skipFaceIds", [])`
makes the two runs identical — same fetches, same final set, same writes. -/
theorem missing_skip_key_defaults_empty (srv : Server α) (fids : List String) (aid : String) :
    processMapping srv ⟨fids, aid, none⟩ = processMapping srv ⟨fids, aid, some []⟩ := rfl

/-- Claim C5: when the fetch phase succeeds, every chunk of the final list
receives exactly one album-write call, in order, regardless of the write
statuses the server returns: a non-success status on one chunk (recorded as
`add_assets_to_album … = false`) never removes the calls for the remaining
chunks — the statement holds for every `writeStatus` function. -/
theorem write_failure_does_not_abort (srv : Server α) (m : Mapping)
    (hInc : ∀ f ∈ m.faceIds, fetchOk srv f)
    (hSkip : ∀ f ∈ m.skipFaceIds.getD [], fetchOk srv f) :
    ∃ trace out, processMapping srv m = (trace, Except.ok out) ∧
      trace.filter Event.isWrite =
        (chunker out.finalList 500).map
          (fun c => Event.writeCall m.albumId c (add_assets_to_album srv m.albumId c)) ∧
      ∀ c ∈ chunker out.finalList 500,
        Event.writeCall m.albumId c (add_assets_to_album srv m.albumId c) ∈ trace := by
  by_cases hs : m.skipFaceIds.getD [] = []
  · refine ⟨_, _, processMapping_ok_noskip srv m hInc hs, ?_, ?_⟩
    · rw [List.filter_append, filter_isWrite_fetchFaces, filter_isWrite_writeChunks,
        writeChunks_eq_map]
      simp
    · intro c hc
      exact List.mem_append_right _ (by rw [writeChunks_eq_map]; exact List.mem_map_of_mem _ hc)
  · refine ⟨_, _, processMapping_ok_skip srv m hInc hSkip hs, ?_, ?_⟩
    · rw [List.filter_append, List.filter_append, filter_isWrite_fetchFaces,
        filter_isWrite_fetchFaces, filter_isWrite_writeChunks, writeChunks_eq_map]
      simp
    · intro c hc
      exact List.mem_append_right _ (by rw [writeChunks_eq_map]; exact List.mem_map_of_mem _ hc)

/-- Witness for C5: one include face on a server that rejects every write
with status 400. -/
theorem write_failure_does_not_abort_witness :
    ∃ trace out,
      processMapping srvWriteFail ⟨["A"], "al", none⟩ = (trace, Except.ok out) ∧
      trace.filter Event.isWrite =
        (chunker out.finalList 500).map
          (fun c => Event.writeCall (Mapping.mk ["A"] "al" none).albumId c
            (add_assets_to_album srvWriteFail (Mapping.mk ["A"] "al" none).albumId c)) ∧
      ∀ c ∈ chunker out.finalList 500,
        Event.writeCall (Mapping.mk ["A"] "al" none).albumId c
          (add_assets_to_album srvWriteFail (Mapping.mk ["A"] "al" none).albumId c) ∈ trace :=
  write_failure_does_not_abort srvWriteFail ⟨["A"], "al", none⟩ (by decide) (by decide)

/-- Claim C6: a mapping whose final reconciled set is empty — in particular
one with zero include faces, or whose include faces all yield empty sets —
issues zero album-write calls. -/
theorem empty_final_set_zero_writes (srv : Server α) (m : Mapping)
    (hInc : ∀ f ∈ m.faceIds, fetchOk srv f)
    (hSkip : ∀ f ∈ m.skipFaceIds.getD [], fetchOk srv f)
    (hEmpty : unionFaces srv m.faceIds \ unionFaces srv (m.skipFaceIds.getD []) = ∅) :
    ∃ trace out, processMapping srv m = (trace, Except.ok out) ∧
      out.finalSet = ∅ ∧ ∀ e ∈ trace, e.isWrite = false := by
  by_cases hs : m.skipFaceIds.getD [] = []
  · have hU : unionFaces srv m.faceIds = ∅ := by
      rw [hs, unionFaces_nil, Finset.sdiff_empty] at hEmpty
      exact hEmpty
    refine ⟨_, _, processMapping_ok_noskip srv m hInc hs, hU, ?_⟩
    intro e he
    rcases List.mem_append.mp he with h | h
    · obtain ⟨f, _, hf⟩ := fetchFaces_events_face srv m.faceIds ∅ e h
      exact Event.not_isWrite_of_faceOf hf
    · rw [hU] at h
      simp [Finset.sort_empty _, chunker_nil, writeChunks] at h
  · refine ⟨_, _, processMapping_ok_skip srv m hInc hSkip hs, hEmpty, ?_⟩
    intro e he
    rcases List.mem_append.mp he with h | h
    · rcases List.mem_append.mp h with h1 | h1
      · obtain ⟨f, _, hf⟩ := fetchFaces_events_face srv m.faceIds ∅ e h1
        exact Event.not_isWrite_of_faceOf hf
      · obtain ⟨f, _, hf⟩ := fetchFaces_events_face srv (m.skipFaceIds.getD []) ∅ e h1
        exact Event.not_isWrite_of_faceOf hf
    · rw [hEmpty] at h
      simp [Finset.sort_empty _, chunker_nil, writeChunks] at h

/-- Witness for C6: a mapping with zero include faces. -/
theorem empty_final_set_zero_writes_witness :
    ∃ trace out,
      processMapping srvDemo ⟨[], "al", none⟩ = (trace, Except.ok out) ∧
      out.finalSet = ∅ ∧ ∀ e ∈ trace, e.isWrite = false :=
  empty_final_set_zero_writes srvDemo ⟨[], "al", none⟩ (by decide) (by decide) (by decide)

theorem writes_map_writeSize (srv : Server α) (aid : String) (l : List α)
    (h : l.length = 1200) :
    (writeChunks srv aid (chunker l 500)).map Event.writeSize =
      [some 500, some 500, some 200] := by
  rw [writeChunks_eq_map, List.map_map]
  have h1 : (Event.writeSize ∘ fun c : List α =>
      Event.writeCall aid c (add_assets_to_album srv aid c)) = (some ∘ List.length) := rfl
  rw [h1, ← List.map_map, chunker_sizes_1200 l h]
  rfl

/-- Claim C7: a final reconciled set of exactly 1200 asset identifiers is
written in exactly 3 album-write calls whose chunk sizes are 500, 500 and
200, in that order. -/
theorem final_1200_writes_three_chunks (srv : Server α) (m : Mapping)
    (hInc : ∀ f ∈ m.faceIds, fetchOk srv f)
    (hSkip : ∀ f ∈ m.skipFaceIds.getD [], fetchOk srv f)
    (hcard : (unionFaces srv m.faceIds \ unionFaces srv (m.skipFaceIds.getD [])).card = 1200) :
    ∃ trace out, processMapping srv m = (trace, Except.ok out) ∧
      out.finalSet.card = 1200 ∧
      (trace.filter Event.isWrite).map Event.writeSize = [some 500, some 500, some 200] := by
  by_cases hs : m.skipFaceIds.getD [] = []
  · have hU : (unionFaces srv m.faceIds).card = 1200 := by
      rw [hs, unionFaces_nil, Finset.sdiff_empty] at hcard
      exact hcard
    refine ⟨_, _, processMapping_ok_noskip srv m hInc hs, hU, ?_⟩
    rw [List.filter_append, filter_isWrite_fetchFaces, filter_isWrite_writeChunks]
    simp only [List.nil_append]
    exact writes_map_writeSize srv m.albumId _ (by rw [Finset.length_sort]; exact hU)
  · refine ⟨_, _, processMapping_ok_skip srv m hInc hSkip hs, hcard, ?_⟩
    rw [List.filter_append, List.filter_append, filter_isWrite_fetchFaces,
      filter_isWrite_fetchFaces, filter_isWrite_writeChunks]
    simp only [List.nil_append, List.append_nil]
    exact writes_map_writeSize srv m.albumId _ (by rw [Finset.length_sort]; exact hcard)

/-- Witness for C7: one face holding assets 0..1199 in one bucket. -/
theorem final_1200_writes_three_chunks_witness :
    ∃ trace out,
      processMapping srv1200 ⟨["A"], "al", none⟩ = (trace, Except.ok out) ∧
      out.finalSet.card = 1200 ∧
      (trace.filter Event.isWrite).map Event.writeSize = [some 500, some 500, some 200] :=
  final_1200_writes_three_chunks srv1200 ⟨["A"], "al", none⟩ (by decide) (by decide)
    (by
      have h1 : (Mapping.mk ["A"] "al" none).skipFaceIds.getD [] = [] := rfl
      rw [h1, unionFaces_nil, Finset.sdiff_empty, unionFaces_cons, unionFaces_nil,
        Finset.union_empty]
      have h2 : faceSet srv1200 "A" = (List.range 1200).toFinset := by
        simp [faceSet, srv1200]
      have h3 : (List.range 1200).toFinset = Finset.range 1200 := by
        ext a; simp
      rw [h2, h3, Finset.card_range])

/-- Claim C8: a face whose bucket-listing call succeeds with zero time
buckets yields the empty asset set, triggers no page fetches, and the run
continues normally (the result is a success, not an error). -/
theorem zero_buckets_empty_set (srv : Server α) (fid : String)
    (h : srv.bucketsResp fid = (200, [])) :
    fetchFace srv fid ∅ = ([Event.bucketsCall fid 200], Except.ok (∅ : Finset α)) ∧
    faceSet srv fid = ∅ := by
  constructor
  · unfold fetchFace
    rw [h]
    simp [fetchPages]
  · simp [faceSet, h]

/-- Witness for C8: face `Z` of the demo server has zero buckets. -/
theorem zero_buckets_empty_set_witness :
    fetchFace srvDemo "Z" ∅ = ([Event.bucketsCall "Z" 200], Except.ok (∅ : Finset Nat)) ∧
    faceSet srvDemo "Z" = ∅ :=
  zero_buckets_empty_set srvDemo "Z" (by decide)

/-- Claim C4: if any bucket-listing or bucket-page fetch call of a run
returns a non-success status, the run terminates with an error at that very
event — the trace ends with the failed fetch, every earlier fetch succeeded,
and no album-write call occurs after it in that run. -/
theorem fetch_failure_aborts_run (srv : Server α) (ms : List Mapping)
    (h : ∃ e ∈ (runAll srv ms).1, e.isFailedFetch = true) :
    (∃ c, (runAll srv ms).2 = Except.error c) ∧
    (∃ pre e, (runAll srv ms).1 = pre ++ [e] ∧ e.isFailedFetch = true ∧
      ∀ e2 ∈ pre, e2.isFailedFetch = false) ∧
    (∀ l1 e2 l2, (runAll srv ms).1 = l1 ++ e2 :: l2 → e2.isFailedFetch = true →
      ∀ e3 ∈ l2, e3.isWrite = false) := by
  cases hres : (runAll srv ms).2 with
  | ok v =>
    exfalso
    obtain ⟨e, he, hf⟩ := h
    have hnf := (runAll_fatal srv ms).1 v hres e he
    rw [hf] at hnf
    exact Bool.noConfusion hnf
  | error c =>
    obtain ⟨pre, e, hsh, hf, hpre⟩ := (runAll_fatal srv ms).2 c hres
    refine ⟨⟨c, rfl⟩, ⟨pre, e, hsh, hf, hpre⟩, ?_⟩
    intro l1 e2 l2 hdec hf2 e3 he3
    by_cases hl2 : l2 = []
    · subst hl2; simp at he3
    · exfalso
      have hd : ((runAll srv ms).1).dropLast = pre := by rw [hsh]; simp
      have hd2 : ((runAll srv ms).1).dropLast = l1 ++ e2 :: l2.dropLast := by
        rw [hdec, List.dropLast_append_of_ne_nil l1 (by simp),
          List.dropLast_cons_of_ne_nil hl2]
      have hmem : e2 ∈ pre := by rw [← hd, hd2]; simp
      have hok := hpre e2 hmem
      rw [hf2] at hok
      exact Bool.noConfusion hok

/-- Witness for C4: a single mapping on the server whose bucket listing
fails with status 500. -/
theorem fetch_failure_aborts_run_witness :
    (∃ c, (runAll srvFail msFail).2 = Except.error c) ∧
    (∃ pre e, (runAll srvFail msFail).1 = pre ++ [e] ∧ e.isFailedFetch = true ∧
      ∀ e2 ∈ pre, e2.isFailedFetch = false) ∧
    (∀ l1 e2 l2, (runAll srvFail msFail).1 = l1 ++ e2 :: l2 → e2.isFailedFetch = true →
      ∀ e3 ∈ l2, e3.isWrite = false) :=
  fetch_failure_aborts_run srvFail msFail (by decide)

end ImmichFaceToAlbum
